import Mathlib

/-!
Verification of the snippet formatter (`src/main/src/formatter.rs`).

The program renders a diagnostic snippet for a byte span inside a text
buffer.  We embed the buffer as a `List Char` (the program addresses the
buffer by byte offset; every character relevant to the algorithm's
arithmetic is one byte, and the embedding counts characters).  Output is
modelled as the exact sequence of writes the program performs, tagged by
which sink they go through: direct writes (`write!`/`writeln!`), the
`number_formatter` callback, the `span_formatter` callback and the
`marker_formatter` callback.  A `fmt::Result` failure comes only from the
caller's sink and is propagated unchanged, so the write stream itself is
deterministic; the only fallible step modelled is position resolution,
whose failure (the two `Option::unwrap` calls on line 172/173 of the
source) is represented by `none`.

The span type `crate::Span` is not part of the source under verification;
only its `start()`, `end()`, `get_input()` and `lines()` methods are used.
`lines` is modelled from the spec (see `lines` below).
-/

namespace Formatter

/-- Resolved coordinate, mirroring `struct Pos { line: usize, col: usize }`. -/
structure Pos where
  line : Nat
  col : Nat
deriving DecidableEq, Repr

/-- Single-line span, mirroring
`struct PosSpan { line: usize, col_start: usize, col_end: usize }`. -/
structure PosSpan where
  line : Nat
  col_start : Nat
  col_end : Nat
deriving DecidableEq, Repr

/-- One write performed by the formatter, tagged by the sink it goes
through: `raw` is a direct `write!`/`writeln!`, `number` goes through
`number_formatter`, `span` through `span_formatter` and `marker` through
`marker_formatter`. -/
inductive Out where
  | raw : List Char → Out
  | number : List Char → Out
  | span : List Char → Out
  | marker : List Char → Out
deriving DecidableEq, Repr

/-- Characters carried by a write, regardless of its sink. -/
def payload : Out → List Char
  | .raw s => s
  | .number s => s
  | .span s => s
  | .marker s => s

/-- Characters of a row of writes, in order. -/
def rowText : List Out → List Char
  | [] => []
  | o :: rest => payload o ++ rowText rest

/-- Strings passed to the `marker_formatter` callback within a row. -/
def markerStrings (row : List Out) : List (List Char) :=
  row.filterMap fun o => match o with | .marker s => some s | _ => none

/-- Strings passed to the `number_formatter` callback within a row. -/
def numberStrings (row : List Out) : List (List Char) :=
  row.filterMap fun o => match o with | .number s => some s | _ => none

/-- Embedding of Rust's `str::replace(pat, rep)` for a one-character
pattern, as used on line 53 of the source. -/
def replaceChar (pat : Char) (rep : List Char) : List Char → List Char
  | [] => []
  | c :: rest => (if c = pat then rep else [c]) ++ replaceChar pat rep rest

/-- Mirrors `visualize_white_space` (source lines 50-54):
`line.replace('\n', "␊").replace('\r', "␍")`. -/
def visualize_white_space (line : List Char) : List Char :=
  replaceChar '\r' ['␍'] (replaceChar '\n' ['␊'] line)

/-- Accumulator-based splitting of a buffer into lines; each line keeps its
terminating `'\n'`, and a final unterminated fragment forms a last line. -/
def linesAux : List Char → List Char → List (List Char)
  | [], acc => if acc.isEmpty then [] else [acc.reverse]
  | c :: rest, acc =>
    if c = '\n' then (acc.reverse ++ ['\n']) :: linesAux rest []
    else linesAux rest (c :: acc)

/-- Modelled from the spec: `Span::lines()` of the full-input span, which is
not part of the source under `src/`.  Spec §4.1: "split the buffer into its
constituent lines (each line's reported length includes its original
line-terminator bytes, so offsets accumulate consistently with the raw
buffer)".  An empty buffer has no constituent lines. -/
def lines (buf : List Char) : List (List Char) :=
  linesAux buf []

/-- Total length of a list of lines. -/
def sumLen : List (List Char) → Nat
  | [] => 0
  | l :: rest => l.length + sumLen rest

/-- The scanning loop shared by both halves of position resolution (source
lines 151-171): walk the remaining `lines` (first remaining line has index
`idx`), keeping the running byte offset `p` of fully consumed lines; stop
at the first line with `p + line.len() ≥ target` and report the position,
the offset `p` at that point and the remaining lines (the found line is
peeked, not consumed, exactly as the `while let ... iter.peek()` loop
leaves it). -/
def findPos : List (List Char) → Nat → Nat → Nat → Option (Pos × Nat × List (List Char))
  | [], _, _, _ => none
  | l :: rest, idx, p, t =>
    if t ≤ p + l.length then some (⟨idx, t - p⟩, p, l :: rest)
    else findPos rest (idx + 1) (p + l.length) t

/-- Position resolution of `display_snippet` (source lines 146-173): the
start loop leaves the found line in the iterator, and the end `for` loop
continues from that very line with `pos` unchanged.  `none` models reaching
`start.unwrap()` / `end.unwrap()` with `None`, which panics. -/
def resolve (buf : List Char) (s e : Nat) : Option (Pos × Pos) :=
  match findPos (lines buf) 0 0 s with
  | none => none
  | some (st, p, rest) =>
    match findPos rest st.line p e with
    | none => none
    | some (en, _, _) => some (st, en)

/-- Decimal digits of `n`, most significant first, with explicit fuel
(structurally recursive so that concrete inputs evaluate). -/
def toDecAux : Nat → Nat → List Char
  | 0, _ => []
  | fuel + 1, n =>
    if n = 0 then [] else toDecAux fuel (n / 10) ++ [Nat.digitChar (n % 10)]

/-- Decimal rendering of a natural number, as Rust's `Display` for `usize`. -/
def decimal (n : Nat) : List Char :=
  if n = 0 then ['0'] else toDecAux n n

/-- Embedding of `format!("{:w$}", n, w = width)`: the decimal rendering of
`n`, right-aligned, padded on the left with spaces up to `width`. -/
def format_width (n width : Nat) : List Char :=
  List.replicate (width - (decimal n).length) ' ' ++ decimal n

/-- Loop body of the gutter-width computation (source lines 180-186):
`digit = 1; while i >= 10 { digit += 1; i /= 10 }`, with explicit fuel. -/
def indexDigitAux : Nat → Nat → Nat → Nat
  | 0, _, digit => digit
  | fuel + 1, i, digit =>
    if 10 ≤ i then indexDigitAux fuel (i / 10) (digit + 1) else digit

/-- Gutter width computed by `display_snippet` (source lines 179-187) from
the resolved end line: the loop runs on `i = end.line + 1`. -/
def index_digit (endLine : Nat) : Nat :=
  indexDigitAux (endLine + 1) (endLine + 1) 1

/-- Mirrors `display_snippet_single_line` (source lines 55-88).  Each row
is the list of writes between two `writeln!`-terminated boundaries, in the
order the source performs them. -/
def display_snippet_single_line (index_digit : Nat) (line : List Char)
    (ps : PosSpan) : List (List Out) :=
  let spacing := List.replicate index_digit ' '
  [ [.raw (spacing ++ [' ']), .number ['|'], .raw ['\n']]
  , [.number (format_width (ps.line + 1) index_digit), .raw [' '],
     .number ['|'], .raw (' ' :: line.take ps.col_start),
     .span ((line.drop ps.col_start).take (ps.col_end - ps.col_start)),
     .raw (line.drop ps.col_end), .raw ['\n']]
  , [.raw (spacing ++ [' ']), .number ['|'], .raw (' ' :: line.take ps.col_start),
     .marker (List.replicate (ps.col_end - ps.col_start) '^'), .raw ['\n']] ]

/-- Mirrors `display_snippet_multi_line` (source lines 89-138), including
the `start.1.line.abs_diff(end.1.line) > 1` guard of the ellipsis row. -/
def display_snippet_multi_line (index_digit : Nat) (startLine : List Char)
    (st : Pos) (endLine : List Char) (en : Pos) : List (List Out) :=
  let spacing := List.replicate index_digit ' '
  [ [.raw (spacing ++ [' ']), .number ['|'], .raw (' ' :: startLine.take st.col),
     .marker ['v'], .raw ['\n']]
  , [.number (format_width (st.line + 1) index_digit), .raw [' '],
     .number ['|'], .raw (' ' :: startLine.take st.col),
     .span (startLine.drop st.col), .raw ['\n']] ]
  ++ (if Nat.dist st.line en.line > 1 then
        [[.raw (spacing ++ [' ']), .number ['|'], .raw [' ', '.', '.', '.', '\n']]]
      else [])
  ++ [ [.number (format_width (en.line + 1) index_digit), .raw [' '],
        .number ['|'], .raw [' '], .span (endLine.take en.col),
        .raw (endLine.drop en.col ++ ['\n'])]
     , [.raw (spacing ++ [' ']), .number ['|'], .raw (' ' :: endLine.take (en.col - 1)),
        .marker ['^'], .raw ['\n']] ]

/-- Mirrors `display_snippet` (source lines 139-205).  `none` models the
panic of `start.unwrap()` / `end.unwrap()` when resolution finds no
position.  The selected lines are `lines.skip(start.line).take(end.line -
start.line + 1)`; `next()` and `last()` of that iterator are modelled with
`headD` / `getLastD` (their `unwrap`s cannot fail once resolution has
succeeded). -/
def display_snippet (buf : List Char) (s e : Nat) : Option (List (List Out)) :=
  match resolve buf s e with
  | none => none
  | some (st, en) =>
    let seg := ((lines buf).drop st.line).take (en.line - st.line + 1)
    let w := index_digit en.line
    if st.line = en.line then
      let cur_line := visualize_white_space (seg.headD [])
      some (display_snippet_single_line w cur_line ⟨st.line, st.col, en.col⟩)
    else
      let start_line := visualize_white_space (seg.headD [])
      let end_line := visualize_white_space (seg.getLastD [])
      some (display_snippet_multi_line w start_line st end_line en)

/-- The ellipsis row of the multi-line layout at gutter width `w`:
spacer, gutter separator, literal `" ..."` and the row's newline. -/
def ellipsisRow (w : Nat) : List Out :=
  [.raw (List.replicate w ' ' ++ [' ']), .number ['|'], .raw [' ', '.', '.', '.', '\n']]

/-- Resolution both succeeds and yields ordered line numbers. -/
def resolvesOrdered (r : Option (Pos × Pos)) : Bool :=
  match r with
  | some (st, en) => decide (st.line ≤ en.line)
  | none => false

/-- Variant of `resolve` following the spec's §4.1 step 2 wording for
claim C5 literally: "Continuing from the line *after* the start line,
advance until `pos + line.len() >= span.end`" — the end search begins only
after consuming the start line and accounting its length into `pos`. -/
def resolve_from_next_line (buf : List Char) (s e : Nat) : Option (Pos × Pos) :=
  match findPos (lines buf) 0 0 s with
  | none => none
  | some (st, p, rest) =>
    match rest with
    | [] => none
    | l :: rest' =>
      match findPos rest' (st.line + 1) (p + l.length) e with
      | none => none
      | some (en, _, _) => some (st, en)

/-! ## Helper lemmas about the embedding -/

theorem sumLen_append (a b : List (List Char)) :
    sumLen (a ++ b) = sumLen a + sumLen b := by
  induction a with
  | nil => simp [sumLen]
  | cons l rest ih => simp [sumLen, ih]; omega

theorem sumLen_take_drop (k : Nat) (l : List (List Char)) :
    sumLen (l.take k) + sumLen (l.drop k) = sumLen l := by
  rw [← sumLen_append, List.take_append_drop]

theorem linesAux_sumLen (s : List Char) :
    ∀ acc, sumLen (linesAux s acc) = s.length + acc.length := by
  induction s with
  | nil =>
    intro acc
    by_cases h : acc.isEmpty
    · simp [linesAux, h, sumLen, List.isEmpty_iff.mp h]
    · simp [linesAux, h, sumLen]
  | cons c rest ih =>
    intro acc
    by_cases hc : c = '\n'
    · simp [linesAux, hc, sumLen, ih]
      omega
    · simp [linesAux, hc, ih]
      omega

theorem lines_sumLen (buf : List Char) : sumLen (lines buf) = buf.length := by
  simpa using linesAux_sumLen buf []

theorem linesAux_ne_nil (s : List Char) :
    ∀ acc, acc ≠ [] → linesAux s acc ≠ [] := by
  induction s with
  | nil =>
    intro acc h
    simp [linesAux, h]
  | cons c rest ih =>
    intro acc h
    by_cases hc : c = '\n'
    · simp [linesAux, hc]
    · simpa [linesAux, hc] using ih (c :: acc) (by simp)

theorem lines_ne_nil (buf : List Char) (h : buf ≠ []) : lines buf ≠ [] := by
  cases buf with
  | nil => exact absurd rfl h
  | cons c rest =>
    by_cases hc : c = '\n'
    · simp [lines, linesAux, hc]
    · simpa [lines, linesAux, hc] using linesAux_ne_nil rest [c] (by simp)

theorem getD_drop {α : Type} (l : List α) (m n : Nat) (d : α) :
    (l.drop m).getD n d = l.getD (m + n) d := by
  induction m generalizing l with
  | zero => simp
  | succ m ih =>
    cases l with
    | nil => simp
    | cons a l' =>
      have harith : m + 1 + n = (m + n) + 1 := by omega
      rw [harith, List.getD_cons_succ, List.drop_succ_cons, ih l']

/-- Full characterisation of one scanning loop: what the returned position,
offset and remaining-lines iterator are, that the found line satisfies the
stop condition, and that every earlier candidate line (from `idx` on,
inclusive) failed it. -/
theorem findPos_spec (t : Nat) :
    ∀ (ls : List (List Char)) (idx p : Nat) (res : Pos) (p2 : Nat)
      (rest2 : List (List Char)),
      findPos ls idx p t = some (res, p2, rest2) →
      idx ≤ res.line ∧
      res.line - idx < ls.length ∧
      rest2 = ls.drop (res.line - idx) ∧
      p2 = p + sumLen (ls.take (res.line - idx)) ∧
      res.col = t - p2 ∧
      t ≤ p2 + (ls.getD (res.line - idx) []).length ∧
      (∀ j, idx ≤ j → j < res.line → p + sumLen (ls.take (j + 1 - idx)) < t) := by
  intro ls
  induction ls with
  | nil => intro idx p res p2 rest2 h; simp [findPos] at h
  | cons l rest ih =>
    intro idx p res p2 rest2 h
    rw [findPos] at h
    split at h
    case isTrue hle =>
      simp only [Option.some.injEq, Prod.mk.injEq] at h
      obtain ⟨hres, hp2, hrest⟩ := h
      subst hres; subst hp2; subst hrest
      refine ⟨le_refl _, by simp, by simp, by simp [sumLen], by simp, ?_, ?_⟩
      · simpa using hle
      · intro j hj1 hj2; simp at hj2; omega
    case isFalse hlt =>
      obtain ⟨ih1, ih2, ih3, ih4, ih5, ih6, ih7⟩ :=
        ih (idx + 1) (p + l.length) res p2 rest2 h
      have hk : res.line - idx = (res.line - (idx + 1)) + 1 := by omega
      refine ⟨by omega, ?_, ?_, ?_, ih5, ?_, ?_⟩
      · rw [hk]; simp only [List.length_cons]; omega
      · rw [hk, List.drop_succ_cons]; exact ih3
      · rw [hk, List.take_succ_cons]; simp only [sumLen]; omega
      · rw [hk, List.getD_cons_succ]; exact ih6
      · intro j hj1 hj2
        by_cases hj : j = idx
        · subst hj
          have h1 : j + 1 - j = 1 := by omega
          rw [h1, List.take_succ_cons, List.take_zero]
          simp only [sumLen]
          omega
        · have hstep := ih7 j (by omega) hj2
          have hm : j + 1 - idx = (j + 1 - (idx + 1)) + 1 := by omega
          rw [hm, List.take_succ_cons]
          simp only [sumLen]
          omega

/-- The scanning loop succeeds whenever there is at least one line and the
target offset is within the total remaining length. -/
theorem findPos_some (t : Nat) :
    ∀ (ls : List (List Char)) (idx p : Nat), ls ≠ [] → t ≤ p + sumLen ls →
      (findPos ls idx p t).isSome := by
  intro ls
  induction ls with
  | nil => intro idx p h _; exact absurd rfl h
  | cons l rest ih =>
    intro idx p _ hle
    rw [findPos]
    split
    · simp
    case isFalse hcond =>
      have hrest : rest ≠ [] := by
        intro hr
        subst hr
        simp [sumLen] at hle
        omega
      apply ih (idx + 1) (p + l.length) hrest
      simp only [sumLen] at hle
      omega

/-- Characterisation of a successful position resolution in terms of
cumulative line lengths of the buffer: the end line is the first line at or
after the start line whose cumulative byte count reaches the span end, and
the end column is the span end minus the bytes before the end line. -/
theorem resolve_spec (buf : List Char) (s e : Nat) (st en : Pos)
    (h : resolve buf s e = some (st, en)) :
    st.line ≤ en.line ∧
    en.line < (lines buf).length ∧
    en.col = e - sumLen ((lines buf).take en.line) ∧
    e ≤ sumLen ((lines buf).take en.line) + ((lines buf).getD en.line []).length ∧
    (∀ j, st.line ≤ j → j < en.line → sumLen ((lines buf).take (j + 1)) < e) ∧
    (st.line ≠ en.line → sumLen ((lines buf).take en.line) < e) := by
  unfold resolve at h
  cases h1 : findPos (lines buf) 0 0 s with
  | none => rw [h1] at h; simp at h
  | some v =>
    obtain ⟨st', p, rest⟩ := v
    rw [h1] at h
    simp only at h
    cases h2 : findPos rest st'.line p e with
    | none => rw [h2] at h; simp at h
    | some v2 =>
      obtain ⟨en', p2, rest2⟩ := v2
      rw [h2] at h
      simp only [Option.some.injEq, Prod.mk.injEq] at h
      obtain ⟨hst, hen⟩ := h
      subst hst; subst hen
      obtain ⟨a1, a2, a3, a4, a5, a6, a7⟩ :=
        findPos_spec s (lines buf) 0 0 st' p rest h1
      obtain ⟨b1, b2, b3, b4, b5, b6, b7⟩ :=
        findPos_spec e rest st'.line p en' p2 rest2 h2
      simp only [Nat.sub_zero] at a2 a3 a4 a6
      have hp : p = sumLen ((lines buf).take st'.line) := by simpa using a4
      have hsplit : ∀ m, st'.line ≤ m →
          sumLen ((lines buf).take m) = p + sumLen (rest.take (m - st'.line)) := by
        intro m hm
        have hmeq : m = st'.line + (m - st'.line) := by omega
        rw [hmeq, List.take_add, sumLen_append, ← a3, ← hp, Nat.add_sub_cancel_left]
      have hsum : sumLen ((lines buf).take en'.line) = p2 := by
        rw [hsplit en'.line b1, b4]
      have hgetD : (lines buf).getD en'.line [] = rest.getD (en'.line - st'.line) [] := by
        rw [a3, getD_drop]
        congr 1
        omega
      refine ⟨b1, ?_, ?_, ?_, ?_, ?_⟩
      · have hlen : rest.length = (lines buf).length - st'.line := by
          rw [a3, List.length_drop]
        omega
      · rw [hsum]; exact b5
      · rw [hsum, hgetD]; exact b6
      · intro j hj1 hj2
        have hb := b7 j hj1 hj2
        rw [hsplit (j + 1) (by omega)]
        omega
      · intro hne
        have hlt : st'.line < en'.line := by omega
        have hb := b7 (en'.line - 1) (by omega) (by omega)
        have harith : en'.line - 1 + 1 - st'.line = en'.line - st'.line := by omega
        rw [harith] at hb
        omega

theorem toDecAux_zero (fuel : Nat) : toDecAux fuel 0 = [] := by
  cases fuel <;> simp [toDecAux]

theorem toDecAux_length (fuel : Nat) :
    ∀ n, 1 ≤ n → n ≤ fuel → (toDecAux fuel n).length = Nat.log 10 n + 1 := by
  induction fuel with
  | zero => intro n h1 h2; omega
  | succ fuel ih =>
    intro n h1 h2
    rw [toDecAux, if_neg (by omega)]
    by_cases h10 : 10 ≤ n
    · have hd1 : 1 ≤ n / 10 := (Nat.one_le_div_iff (by norm_num)).mpr h10
      have hd2 : n / 10 ≤ fuel := by
        have := Nat.div_lt_self (show 0 < n by omega) (show 1 < 10 by norm_num)
        omega
      rw [List.length_append, ih (n / 10) hd1 hd2]
      have hlog := Nat.log_div_base 10 n
      have hpos := Nat.log_pos (show 1 < 10 by norm_num) h10
      simp only [List.length_cons, List.length_nil]
      omega
    · have hdiv : n / 10 = 0 := Nat.div_eq_of_lt (by omega)
      rw [hdiv, toDecAux_zero, Nat.log_of_lt (by omega)]
      simp

theorem decimal_length (n : Nat) (h : 1 ≤ n) :
    (decimal n).length = Nat.log 10 n + 1 := by
  rw [decimal, if_neg (by omega)]
  exact toDecAux_length n n h (le_refl n)

theorem indexDigitAux_eq (fuel : Nat) :
    ∀ i digit, 1 ≤ i → i ≤ fuel →
      indexDigitAux fuel i digit = digit + Nat.log 10 i := by
  induction fuel with
  | zero => intro i d h1 h2; omega
  | succ fuel ih =>
    intro i d h1 h2
    rw [indexDigitAux]
    split
    case isTrue h10 =>
      have hd1 : 1 ≤ i / 10 := (Nat.one_le_div_iff (by norm_num)).mpr h10
      have hd2 : i / 10 ≤ fuel := by
        have := Nat.div_lt_self (show 0 < i by omega) (show 1 < 10 by norm_num)
        omega
      rw [ih (i / 10) (d + 1) hd1 hd2]
      have hlog := Nat.log_div_base 10 i
      have hpos := Nat.log_pos (show 1 < 10 by norm_num) h10
      omega
    case isFalse h10 =>
      rw [Nat.log_of_lt (by omega)]
      omega

theorem index_digit_eq_log (endLine : Nat) :
    index_digit endLine = Nat.log 10 (endLine + 1) + 1 := by
  rw [index_digit, indexDigitAux_eq (endLine + 1) (endLine + 1) 1 (by omega) (le_refl _)]
  omega

theorem format_width_length (n w : Nat) (h : (decimal n).length ≤ w) :
    (format_width n w).length = w := by
  simp only [format_width, List.length_append, List.length_replicate]
  omega

theorem decimal_length_le (m n : Nat) (h1 : 1 ≤ m) (h2 : m ≤ n) :
    (decimal m).length ≤ (decimal n).length := by
  rw [decimal_length m h1, decimal_length n (by omega)]
  have := Nat.log_mono_right (b := 10) h2
  omega

theorem drop_take_sep (w : Nat) (g tail : List Char) (hg : g.length = w) :
    ((g ++ ' ' :: '|' :: tail).drop w).take 2 = [' ', '|'] := by
  rw [List.drop_left' hg]
  rfl

theorem visualize_cons (c : Char) (rest : List Char) :
    visualize_white_space (c :: rest) =
      (if c = '\n' then ['␊'] else if c = '\r' then ['␍'] else [c]) ++
        visualize_white_space rest := by
  by_cases h1 : c = '\n'
  · subst h1
    simp [visualize_white_space, replaceChar]
  · by_cases h2 : c = '\r'
    · subst h2
      simp [visualize_white_space, replaceChar]
    · simp [visualize_white_space, replaceChar, h1, h2]

theorem rowText_gutter_number (a : List Char) (rest : List Out) :
    rowText (.number a :: .raw [' '] :: .number ['|'] :: rest) =
      a ++ ' ' :: '|' :: rowText rest := by
  simp [rowText, payload]

theorem rowText_gutter_spacer (w : Nat) (rest : List Out) :
    rowText (.raw (List.replicate w ' ' ++ [' ']) :: .number ['|'] :: rest) =
      List.replicate w ' ' ++ ' ' :: '|' :: rowText rest := by
  simp [rowText, payload]

theorem gutter_sep_spacer (w : Nat) (rest : List Out) :
    ((rowText (.raw (List.replicate w ' ' ++ [' ']) :: .number ['|'] :: rest)).drop w).take 2 =
      [' ', '|'] := by
  rw [rowText_gutter_spacer]
  exact drop_take_sep w _ _ (by simp)

theorem gutter_sep_number (n w : Nat) (rest : List Out)
    (h : (decimal n).length ≤ w) :
    ((rowText (.number (format_width n w) :: .raw [' '] :: .number ['|'] :: rest)).drop w).take 2 =
      [' ', '|'] := by
  rw [rowText_gutter_number]
  exact drop_take_sep w _ _ (format_width_length n w h)

/-! ## Claim theorems -/

/-- C1, counterexample: the empty buffer with the span `[0,0)` satisfies
`0 ≤ start ≤ end ≤ len(buffer)`, yet position resolution finds no start
position (the buffer has no lines to scan), so the claim "for every buffer
and every span within bounds, resolution succeeds" is false. -/
theorem resolve_empty_buffer_within_bounds_fails :
    ((0 : Nat) ≤ 0 ∧ (0 : Nat) ≤ List.length ([] : List Char)) ∧
    resolve ([] : List Char) 0 0 = none := by decide

/-- C1, amended: for every NON-EMPTY buffer and every span with
`0 ≤ start ≤ end ≤ len(buffer)`, position resolution succeeds (both
`Option`s are `some`, so the unwraps are never reached) and the resolved
positions satisfy `start.line ≤ end.line`. -/
theorem resolve_succeeds_of_nonempty (buf : List Char) (s e : Nat)
    (hne : buf ≠ []) (hse : s ≤ e) (hlen : e ≤ buf.length) :
    resolvesOrdered (resolve buf s e) = true := by
  have hlines := lines_ne_nil buf hne
  have hsum : sumLen (lines buf) = buf.length := lines_sumLen buf
  have h1 : (findPos (lines buf) 0 0 s).isSome := by
    apply findPos_some s (lines buf) 0 0 hlines
    omega
  obtain ⟨⟨st, p, rest⟩, hfs⟩ := Option.isSome_iff_exists.mp h1
  obtain ⟨a1, a2, a3, a4, a5, a6, a7⟩ := findPos_spec s (lines buf) 0 0 st p rest hfs
  simp only [Nat.sub_zero, Nat.zero_add] at a2 a3 a4
  have hrest : rest ≠ [] := by
    rw [a3]
    intro hd
    rw [List.drop_eq_nil_iff] at hd
    omega
  have htot : p + sumLen rest = buf.length := by
    rw [a4, a3, sumLen_take_drop]
    exact hsum
  have h2 : (findPos rest st.line p e).isSome := by
    apply findPos_some e rest st.line p hrest
    omega
  obtain ⟨⟨en, p2, rest2⟩, hfe⟩ := Option.isSome_iff_exists.mp h2
  obtain ⟨b1, _, _, _, _, _, _⟩ := findPos_spec e rest st.line p en p2 rest2 hfe
  simp [resolve, resolvesOrdered, hfs, hfe, b1]

/-- C1, witness for the amended theorem at buffer `"ab"`, span `[0,1)`. -/
theorem resolve_succeeds_of_nonempty_witness :
    ("ab".toList ≠ ([] : List Char)) ∧ (0 : Nat) ≤ 1 ∧ 1 ≤ "ab".toList.length ∧
    resolvesOrdered (resolve "ab".toList 0 1) = true :=
  ⟨by decide, by decide, by decide,
    resolve_succeeds_of_nonempty "ab".toList 0 1 (by decide) (by decide) (by decide)⟩

/-- C2: at buffer `"ab"` (length 2) and span `[0,5)`, the end offset
exceeds the buffer length; the end scan exhausts all lines leaving `end` as
`None`, and `display_snippet` reaches `end.unwrap()`, which panics — an
unconditional abort modelled by `none`.  No recoverable error value of any
kind is produced, contradicting the required `OutOfBoundsSpan` reporting. -/
theorem display_snippet_out_of_bounds_aborts :
    display_snippet "ab".toList 0 5 = none ∧
    resolve "ab".toList 0 5 = none := by decide

/-- C3: in every single-line rendering, the single string handed to the
marker callback in the caret row (the third emitted row) is exactly
`col_end - col_start` caret characters, so the caret count equals the
highlighted byte length. -/
theorem single_line_caret_count (w : Nat) (line : List Char) (ps : PosSpan) :
    markerStrings ((display_snippet_single_line w line ps).getD 2 []) =
      [List.replicate (ps.col_end - ps.col_start) '^'] ∧
    ∀ m ∈ markerStrings ((display_snippet_single_line w line ps).getD 2 []),
      m.length = ps.col_end - ps.col_start := by
  have hms : markerStrings ((display_snippet_single_line w line ps).getD 2 []) =
      [List.replicate (ps.col_end - ps.col_start) '^'] := rfl
  refine ⟨hms, ?_⟩
  intro m hm
  rw [hms] at hm
  simp only [List.mem_singleton] at hm
  rw [hm]
  simp

/-- C5, counterexample: at buffer `"hello\nworld\n"` and span `[1,4)`, the
code resolves the end position on line 0 — the very line the start was
found on (the peeked line is not consumed before the end loop) — whereas a
search that "continues from the line after the start line"
(`resolve_from_next_line`, spec §4.1 step 2 verbatim) yields a different
result, so the claim's description of the search is false. -/
theorem resolve_end_reexamines_start_line :
    resolve "hello\nworld\n".toList 1 4 = some (⟨0, 1⟩, ⟨0, 4⟩) ∧
    resolve_from_next_line "hello\nworld\n".toList 1 4 ≠
      resolve "hello\nworld\n".toList 1 4 := by decide

/-- C5, amended: the end search continues from the start line ITSELF (the
start loop peeks, so the found line is still in the iterator, with `pos`
unchanged): the end line is the first line `j ≥ start.line` — `start.line`
included — with `pos + line.len() ≥ span.end` (every line from
`start.line` to `end.line - 1` fails this test), and
`end.col = span.end - pos` where `pos` is the total length of the lines
before the end line. -/
theorem resolve_end_search_from_start_line (buf : List Char) (s e : Nat)
    (st en : Pos) (h : resolve buf s e = some (st, en)) :
    st.line ≤ en.line ∧
    en.col = e - sumLen ((lines buf).take en.line) ∧
    e ≤ sumLen ((lines buf).take en.line) + ((lines buf).getD en.line []).length ∧
    (∀ j, st.line ≤ j → j < en.line → sumLen ((lines buf).take (j + 1)) < e) := by
  obtain ⟨h1, _, h3, h4, h5, _⟩ := resolve_spec buf s e st en h
  exact ⟨h1, h3, h4, h5⟩

/-- C5, witness for the amended theorem at buffer `"a\nb\n"`, span `[0,3)`. -/
theorem resolve_end_search_from_start_line_witness :
    (resolve "a\nb\n".toList 0 3 = some (⟨0, 0⟩, ⟨1, 1⟩)) ∧
    (1 : Nat) = 3 - sumLen ((lines "a\nb\n".toList).take 1) ∧
    sumLen ((lines "a\nb\n".toList).take 1) < 3 :=
  ⟨by decide,
    (resolve_end_search_from_start_line "a\nb\n".toList 0 3 ⟨0, 0⟩ ⟨1, 1⟩ (by decide)).2.1,
    (resolve_end_search_from_start_line "a\nb\n".toList 0 3 ⟨0, 0⟩ ⟨1, 1⟩
      (by decide)).2.2.2 0 (by decide) (by decide)⟩

/-- C8: `visualize_white_space` is the per-character mapping sending `'\n'`
to `'␊'`, `'\r'` to `'␍'` and leaving every other character unchanged, in
order (a `List.map`, hence pure and order-preserving). -/
theorem visualize_white_space_char_map (l : List Char) :
    visualize_white_space l =
      l.map (fun c => if c = '\n' then '␊' else if c = '\r' then '␍' else c) := by
  induction l with
  | nil => rfl
  | cons c rest ih =>
    rw [visualize_cons, ih, List.map_cons]
    by_cases h1 : c = '\n'
    · simp [h1]
    · by_cases h2 : c = '\r'
      · simp [h1, h2]
      · simp [h1, h2]

/-- C9: whenever resolution yields a multi-line span
(`start.line ≠ end.line`), the resolved end column is at least 1 — so the
`end.col - 1` in the trailing caret row never underflows — and
`end.col - 1` stays within the end line, so the slice
`&end.0[..end.col - 1]` is well-defined. -/
theorem multi_line_end_col_positive (buf : List Char) (s e : Nat) (st en : Pos)
    (h : resolve buf s e = some (st, en)) (hne : st.line ≠ en.line) :
    1 ≤ en.col ∧ en.col - 1 ≤ ((lines buf).getD en.line []).length := by
  obtain ⟨_, _, h3, h4, _, h6⟩ := resolve_spec buf s e st en h
  have hlt := h6 hne
  omega

/-- C9, witness at buffer `"a\nb\n"`, span `[0,3)` (a two-line span). -/
theorem multi_line_end_col_positive_witness :
    (resolve "a\nb\n".toList 0 3 = some (⟨0, 0⟩, ⟨1, 1⟩)) ∧ ((0 : Nat) ≠ 1) ∧
    (1 ≤ (1 : Nat) ∧ 1 - 1 ≤ ((lines "a\nb\n".toList).getD 1 []).length) :=
  ⟨by decide, by decide,
    multi_line_end_col_positive "a\nb\n".toList 0 3 ⟨0, 0⟩ ⟨1, 1⟩ (by decide) (by decide)⟩

/-- C4: in every multi-line rendering produced by `display_snippet`, the
ellipsis row (spacer, gutter `"|"`, literal `" ..."`) is emitted if and
only if `end.line - start.line > 1` — the code's `abs_diff` guard
coincides with this subtraction because resolution always yields
`start.line ≤ end.line`. -/
theorem multi_line_ellipsis_iff (buf : List Char) (s e : Nat) (st en : Pos)
    (rows : List (List Out)) (hres : resolve buf s e = some (st, en))
    (hml : st.line ≠ en.line) (hdisp : display_snippet buf s e = some rows) :
    (ellipsisRow (index_digit en.line) ∈ rows ↔ 1 < en.line - st.line) := by
  have hle : st.line ≤ en.line := (resolve_spec buf s e st en hres).1
  have hdist : Nat.dist st.line en.line = en.line - st.line :=
    Nat.dist_eq_sub_of_le hle
  unfold display_snippet at hdisp
  rw [hres] at hdisp
  simp only [if_neg hml] at hdisp
  obtain rfl := Option.some.inj hdisp
  simp only [display_snippet_multi_line, hdist, ellipsisRow]
  by_cases hc : 1 < en.line - st.line
  · simp [hc]
  · simp [hc]

/-- C4, witness at buffer `"a\nb\nc\nd\n"`, span `[0,7)`: a four-line span,
whose rendering does contain the ellipsis row. -/
theorem multi_line_ellipsis_iff_witness :
    (resolve "a\nb\nc\nd\n".toList 0 7 = some (⟨0, 0⟩, ⟨3, 1⟩)) ∧
    ((0 : Nat) ≠ 3) ∧
    (display_snippet "a\nb\nc\nd\n".toList 0 7 =
      some ((display_snippet "a\nb\nc\nd\n".toList 0 7).getD [])) ∧
    (ellipsisRow (index_digit 3) ∈ (display_snippet "a\nb\nc\nd\n".toList 0 7).getD [] ↔
      1 < 3 - 0) :=
  ⟨by decide, by decide, by decide,
    multi_line_ellipsis_iff "a\nb\nc\nd\n".toList 0 7 ⟨0, 0⟩ ⟨3, 1⟩
      ((display_snippet "a\nb\nc\nd\n".toList 0 7).getD [])
      (by decide) (by decide) (by decide)⟩

/-- C6, counterexample: for buffer `"hello\nworld\n"` and span `[1,4)`
(prefix `"h"` before `col_start`), the caret row's write before the marker
callback is `" h"` — the prefix TEXT itself — and not the two spaces
`"  "` the claim requires, so "only spaces, not the prefix text itself,
appear before the carets" is false. -/
theorem caret_row_repeats_prefix_text :
    ((display_snippet "hello\nworld\n".toList 1 4).map fun rows => rows.getD 2 []) =
      some [.raw [' ', ' '], .number ['|'], .raw [' ', 'h'],
        .marker ['^', '^', '^'], .raw ['\n']] ∧
    Out.raw [' ', 'h'] ≠ Out.raw [' ', ' '] := by decide

/-- C6, amended: the caret row written after the source row is: gutter
spaces, the gutter callback applied to `"|"`, then a space followed by the
PREFIX TEXT ITSELF (the line's text before `col_start`, exactly as in the
source row — which keeps the carets aligned), then the marker callback
applied to the repeated carets, then the newline. -/
theorem single_line_caret_row_layout (w : Nat) (line : List Char) (ps : PosSpan) :
    rowText ((display_snippet_single_line w line ps).getD 2 []) =
      List.replicate w ' ' ++ ' ' :: '|' :: ' ' ::
        (line.take ps.col_start ++
          (List.replicate (ps.col_end - ps.col_start) '^' ++ ['\n'])) ∧
    markerStrings ((display_snippet_single_line w line ps).getD 2 []) =
      [List.replicate (ps.col_end - ps.col_start) '^'] := by
  constructor
  · simp [display_snippet_single_line, rowText, payload]
  · rfl

/-- C7, counterexample: for a ten-line buffer spanned entirely (end line 9,
display number 10, gutter width 2), the start row's line number is handed
to the gutter callback as `" 1"` — space-padded, right-aligned (Rust's
`format!("{:w$}", ..)`) — not the zero-padded `"01"` the claim's
"zero-padded-width formatting" describes. -/
theorem gutter_number_space_padded :
    ((display_snippet "a\na\na\na\na\na\na\na\na\na\n".toList 0 20).map
        fun rows => numberStrings (rows.getD 1 [])) =
      some [[' ', '1'], ['|']] ∧
    ([' ', '1'] : List Char) ≠ ['0', '1'] := by decide

/-- C7, amended: the gutter width equals the number of decimal digits of
`end.line + 1`, numbered rows format their line number right-aligned and
SPACE-padded to that width, and every emitted row — numbered or spacer —
uses exactly this width: its text carries the separator `" |"` exactly
after the first `index_digit end.line` characters. -/
theorem gutter_width_uniform (buf : List Char) (s e : Nat) (st en : Pos)
    (rows : List (List Out)) (hres : resolve buf s e = some (st, en))
    (hdisp : display_snippet buf s e = some rows) :
    index_digit en.line = (Nat.digits 10 (en.line + 1)).length ∧
    format_width (en.line + 1) (index_digit en.line) =
      List.replicate (index_digit en.line - (decimal (en.line + 1)).length) ' ' ++
        decimal (en.line + 1) ∧
    ∀ row ∈ rows, ((rowText row).drop (index_digit en.line)).take 2 = [' ', '|'] := by
  have hle : st.line ≤ en.line := (resolve_spec buf s e st en hres).1
  have hdigits : index_digit en.line = (Nat.digits 10 (en.line + 1)).length := by
    rw [index_digit_eq_log, Nat.digits_len 10 (en.line + 1) (by norm_num) (by omega)]
  refine ⟨hdigits, rfl, ?_⟩
  have hen : (decimal (en.line + 1)).length = index_digit en.line := by
    rw [decimal_length (en.line + 1) (by omega), index_digit_eq_log]
  have hst : (decimal (st.line + 1)).length ≤ index_digit en.line := by
    calc (decimal (st.line + 1)).length ≤ (decimal (en.line + 1)).length :=
          decimal_length_le (st.line + 1) (en.line + 1) (by omega) (by omega)
      _ = index_digit en.line := hen
  unfold display_snippet at hdisp
  rw [hres] at hdisp
  by_cases hml : st.line = en.line
  · simp only [if_pos hml] at hdisp
    obtain rfl := Option.some.inj hdisp
    intro row hrow
    simp only [display_snippet_single_line, List.mem_cons,
      List.not_mem_nil, or_false] at hrow
    rcases hrow with h | h | h <;> subst h
    · exact gutter_sep_spacer _ _
    · exact gutter_sep_number _ _ _ (by simpa [hml] using hst)
    · exact gutter_sep_spacer _ _
  · simp only [if_neg hml] at hdisp
    obtain rfl := Option.some.inj hdisp
    intro row hrow
    simp only [display_snippet_multi_line, List.mem_cons, List.mem_append,
      List.not_mem_nil, or_false] at hrow
    by_cases hc : Nat.dist st.line en.line > 1 <;>
      simp only [hc, if_true, if_false, List.mem_cons, List.mem_singleton,
        List.not_mem_nil, false_or, or_false, ite_true, ite_false, or_assoc] at hrow
    · rcases hrow with h | h | h | h | h <;> subst h
      · exact gutter_sep_spacer _ _
      · exact gutter_sep_number _ _ _ hst
      · exact gutter_sep_spacer _ _
      · exact gutter_sep_number _ _ _ (le_of_eq hen)
      · exact gutter_sep_spacer _ _
    · rcases hrow with h | h | h | h <;> subst h
      · exact gutter_sep_spacer _ _
      · exact gutter_sep_number _ _ _ hst
      · exact gutter_sep_number _ _ _ (le_of_eq hen)
      · exact gutter_sep_spacer _ _

/-- C7, witness for the amended theorem at the ten-line buffer spanned
entirely: gutter width 2, and the first emitted row (a spacer row) carries
`" |"` right after its 2-character gutter field. -/
theorem gutter_width_uniform_witness :
    (resolve "a\na\na\na\na\na\na\na\na\na\n".toList 0 20 = some (⟨0, 0⟩, ⟨9, 2⟩)) ∧
    (display_snippet "a\na\na\na\na\na\na\na\na\na\n".toList 0 20 =
      some ((display_snippet "a\na\na\na\na\na\na\na\na\na\n".toList 0 20).getD [])) ∧
    index_digit 9 = (Nat.digits 10 10).length ∧
    ((rowText (((display_snippet "a\na\na\na\na\na\na\na\na\na\n".toList 0 20).getD
      []).getD 0 [])).drop (index_digit 9)).take 2 = [' ', '|'] :=
  ⟨by decide, by decide,
    (gutter_width_uniform "a\na\na\na\na\na\na\na\na\na\n".toList 0 20 ⟨0, 0⟩ ⟨9, 2⟩
      ((display_snippet "a\na\na\na\na\na\na\na\na\na\n".toList 0 20).getD [])
      (by decide) (by decide)).1,
    (gutter_width_uniform "a\na\na\na\na\na\na\na\na\na\n".toList 0 20 ⟨0, 0⟩ ⟨9, 2⟩
      ((display_snippet "a\na\na\na\na\na\na\na\na\na\n".toList 0 20).getD [])
      (by decide) (by decide)).2.2
      (((display_snippet "a\na\na\na\na\na\na\na\na\na\n".toList 0 20).getD []).getD 0 [])
      (by decide)⟩

/-- C10: buffer `"hello\nworld\n"` with span `[1,4)` renders through the
single-line layout: three rows, the numbered row shows line number `1` and
highlights `"ell"` via the span callback, and the caret row passes exactly
three carets to the marker callback, preceded by the same one-column
prefix as the source row (so they sit under `"ell"`). -/
theorem example_one_single_line_render :
    display_snippet "hello\nworld\n".toList 1 4 = some
      [ [.raw [' ', ' '], .number ['|'], .raw ['\n']]
      , [.number ['1'], .raw [' '], .number ['|'], .raw [' ', 'h'],
         .span ['e', 'l', 'l'], .raw ['o', '␊'], .raw ['\n']]
      , [.raw [' ', ' '], .number ['|'], .raw [' ', 'h'],
         .marker ['^', '^', '^'], .raw ['\n']] ] := by decide

end Formatter
